import Mathlib

/-!
Shallow embedding of the `general_pub_sub` Rust crate (`src/lib.rs`).

The registry (`PubSub`) owns three tables:
  * `clients` — a `HashMap<TIdentifier, TClient>`, modelled as an
    association list with unique keys (iteration order is the list order);
  * `channels` — `HashMap<&str, BTreeSet<TIdentifier>>`, literal channels;
  * `pattern_channels` — same shape, for wildcard channels.

A `BTreeSet` is modelled as a strictly ascending `List α`; its `insert`
and `remove` return the same `Bool` the Rust methods return. Identifiers
are generic over a linear order with decidable equality, mirroring the
`UniqueIdentifier: Ord + Eq + Hash` bound. The client value type is an
arbitrary `κ`; `add_client` takes the identifier and the client record
separately, standing for `client.get_id()` and the stored client.
-/

set_option autoImplicit false
set_option linter.unusedSectionVars false

namespace GeneralPubSub

variable {α : Type} {κ : Type} [LinearOrder α] [DecidableEq α]
variable {σ : Type} {β : Type} [DecidableEq σ]

/-- `PubSubError` from `src/lib.rs`: the error enum returned by the
registry operations. -/
inductive PubSubError where
  | ClientAlreadySubscribedError
  | ClientNotSubscribedError
  | ChannelDoesNotExistError
  | ClientWithIdentifierAlreadyExistsError
  | ClientDoesNotExistError
  deriving DecidableEq, Repr

/-- `HashMap::get` on an association list: the value at the first
occurrence of the key, if any. -/
def alistGet (k : σ) : List (σ × β) → Option β
  | [] => none
  | (k', v) :: rest => if k = k' then some v else alistGet k rest

/-- `HashMap::insert` (and writing through `entry`/`get_mut`): replace the
value at the first occurrence of the key, or append the binding if the
key is absent. -/
def alistSet (k : σ) (v : β) : List (σ × β) → List (σ × β)
  | [] => [(k, v)]
  | (k', v') :: rest =>
    if k = k' then (k, v) :: rest else (k', v') :: alistSet k v rest

/-- `HashMap::remove`: drop the first occurrence of the key. -/
def alistRemove (k : σ) : List (σ × β) → List (σ × β)
  | [] => []
  | (k', v') :: rest => if k = k' then rest else (k', v') :: alistRemove k rest

/-- `BTreeSet::insert`: insert into a strictly ascending list, returning
`true` iff the set did not already contain the value (the Rust return
value), together with the new set. -/
def btreeInsert (x : α) : List α → Bool × List α
  | [] => (true, [x])
  | y :: ys =>
    if x < y then (true, x :: y :: ys)
    else if x = y then (false, y :: ys)
    else
      let r := btreeInsert x ys
      (r.1, y :: r.2)

/-- `BTreeSet::remove`: remove the first occurrence of the value,
returning `true` iff it was present. -/
def btreeRemove (x : α) : List α → Bool × List α
  | [] => (false, [])
  | y :: ys =>
    if x = y then (true, ys)
    else
      let r := btreeRemove x ys
      (r.1, y :: r.2)

/-- `channel_is_pattern` from `src/lib.rs`:
`channel.contains('*') || channel.contains('?')`. -/
def channel_is_pattern (channel : String) : Bool :=
  channel.data.contains '*' || channel.data.contains '?'

/-- Helper for `globMatch`: try the continuation on every suffix of the
subject — the semantics of a `*` wildcard consuming zero or more
characters. -/
def starAux (f : List Char → Bool) : List Char → Bool
  | [] => f []
  | c :: s => f (c :: s) || starAux f s

/-- The non-wildcard step of the matcher: a `?` consumes exactly one
arbitrary character, any other character consumes exactly itself, and
an empty subject fails. -/
def litStep (c : Char) (f : List Char → Bool) : List Char → Bool
  | [] => false
  | x :: s' => (c = '?' || c = x) && f s'

/-- Modelled from the spec: the wildcard matcher supplied by the external
`wildmatch` crate (a dependency, not part of this repository's sources).
Per the spec, `*` matches zero or more arbitrary characters, `?` matches
exactly one arbitrary character, every other character matches itself,
and the whole subject must be consumed (full-string anchoring). -/
def globMatch : List Char → List Char → Bool
  | [], s => s.isEmpty
  | c :: p, s =>
    if c = '*' then starAux (globMatch p) s else litStep c (globMatch p) s

/-- `WildMatch::new(pattern) == channel`: does `pattern` match the
subject string `channel`? -/
def wildMatch (pattern subject : String) : Bool :=
  globMatch pattern.data subject.data

/-- The spec's wildcard semantics, stated declaratively: `*` matches any
(possibly empty) run of characters, `?` matches exactly one character,
and any other character matches only itself; the pattern must cover the
whole subject. -/
inductive GlobSpec : List Char → List Char → Prop where
  | nil : GlobSpec [] []
  | star {p s₁ s₂ : List Char} :
      GlobSpec p s₂ → GlobSpec ('*' :: p) (s₁ ++ s₂)
  | any {p : List Char} {c : Char} {s : List Char} :
      GlobSpec p s → GlobSpec ('?' :: p) (c :: s)
  | lit {p : List Char} {c : Char} {s : List Char} :
      c ≠ '*' → c ≠ '?' → GlobSpec p s → GlobSpec (c :: p) (c :: s)

/-- The `PubSub` struct from `src/lib.rs` (the `PhantomData` field and
the message type parameter carry no state and are omitted). -/
structure PubSub (α : Type) (κ : Type) where
  clients : List (α × κ)
  channels : List (String × List α)
  pattern_channels : List (String × List α)
  deriving DecidableEq

/-- `PubSub::new`. -/
def PubSub.new : PubSub α κ := ⟨[], [], []⟩

/-- `PubSub::add_client`: `self.clients.insert(client.get_id(), client)`. -/
def add_client (ps : PubSub α κ) (id : α) (client : κ) : PubSub α κ :=
  { ps with clients := alistSet id client ps.clients }

/-- `PubSub::remove_client`: drop the client-table entry and remove the
identifier from every literal and pattern subscriber set. -/
def remove_client (ps : PubSub α κ) (id : α) : PubSub α κ :=
  { clients := alistRemove id ps.clients
    channels := ps.channels.map (fun e => (e.1, (btreeRemove id e.2).2))
    pattern_channels :=
      ps.pattern_channels.map (fun e => (e.1, (btreeRemove id e.2).2)) }

/-- `PubSub::get_channels_for_subscription`: the table selected by
`channel_is_pattern`. -/
def get_channels_for_subscription (ps : PubSub α κ) (channel : String) :
    List (String × List α) :=
  if channel_is_pattern channel then ps.pattern_channels else ps.channels

/-- Writing the selected table back through the `&mut` returned by
`get_channels_for_subscription`. -/
def set_channels_for_subscription (ps : PubSub α κ) (channel : String)
    (table : List (String × List α)) : PubSub α κ :=
  if channel_is_pattern channel then { ps with pattern_channels := table }
  else { ps with channels := table }

/-- `PubSub::sub_client`: `entry(channel).or_insert_with(BTreeSet::new)`,
then `insert(client.get_id())`; `Ok(())` iff the insert reported the
identifier as new, `ClientAlreadySubscribedError` otherwise. -/
def sub_client (ps : PubSub α κ) (id : α) (channel : String) :
    PubSub α κ × Except PubSubError Unit :=
  let target_channels := get_channels_for_subscription ps channel
  let subbed_clients := (alistGet channel target_channels).getD []
  let r := btreeInsert id subbed_clients
  let ps' := set_channels_for_subscription ps channel
    (alistSet channel r.2 target_channels)
  (ps', if r.1 then Except.ok ()
    else Except.error PubSubError.ClientAlreadySubscribedError)

/-- `PubSub::unsub_client`: `ChannelDoesNotExistError` when the key is
absent from the selected table, otherwise `remove(&client.get_id())`,
with `ClientNotSubscribedError` when the identifier was not present. -/
def unsub_client (ps : PubSub α κ) (id : α) (channel : String) :
    PubSub α κ × Except PubSubError Unit :=
  let target_channels := get_channels_for_subscription ps channel
  match alistGet channel target_channels with
  | none => (ps, Except.error PubSubError.ChannelDoesNotExistError)
  | some subbed_clients =>
    let r := btreeRemove id subbed_clients
    let ps' := set_channels_for_subscription ps channel
      (alistSet channel r.2 target_channels)
    (ps', if r.1 then Except.ok ()
      else Except.error PubSubError.ClientNotSubscribedError)

/-- The literal-channel identifiers collected by `pub_message`:
`self.channels.get_mut(channel)`, iterated (an absent key contributes
nothing). -/
def litSubs (ps : PubSub α κ) (channel : String) : List α :=
  (alistGet channel ps.channels).getD []

/-- The pattern-channel identifiers collected by `pub_message`: every
entry whose pattern matches the published name contributes its whole
subscriber set, in table iteration order. -/
def patSubs (ps : PubSub α κ) (channel : String) : List α :=
  ((ps.pattern_channels.filter (fun e => wildMatch e.1 channel)).map
    (fun e => e.2)).flatten

/-- `itertools::unique`: keep the first occurrence of each element,
tracking the elements already seen. -/
def uniqueAux (seen : List α) : List α → List α
  | [] => []
  | x :: xs =>
    if x ∈ seen then uniqueAux seen xs else x :: uniqueAux (x :: seen) xs

/-- Is the identifier present in the client table
(`self.clients.get(identifier).is_some()`)? -/
def registered (ps : PubSub α κ) (i : α) : Bool :=
  (alistGet i ps.clients).isSome

/-- `PubSub::pub_message`: chain the literal subscribers before the
pattern subscribers, deduplicate keeping first occurrences, and send to
each identifier that is present in the client table. The function only
reads `self`; the state is returned unchanged, paired with the sequence
of identifiers whose `send` is invoked, in invocation order. -/
def pub_message (ps : PubSub α κ) (channel : String) :
    PubSub α κ × List α :=
  let unique_client_identifiers :=
    uniqueAux [] (litSubs ps channel ++ patSubs ps channel)
  (ps, unique_client_identifiers.filter (fun i => registered ps i))

/-- The representation invariant of the Rust maps: each `HashMap` has
unique keys, and every `BTreeSet` stored in either channel table is a
strictly ascending list. -/
def WF (ps : PubSub α κ) : Prop :=
  (ps.clients.map Prod.fst).Nodup ∧
  (ps.channels.map Prod.fst).Nodup ∧
  (ps.pattern_channels.map Prod.fst).Nodup ∧
  (∀ e ∈ ps.channels, e.2.Pairwise (· < ·)) ∧
  (∀ e ∈ ps.pattern_channels, e.2.Pairwise (· < ·))

instance (ps : PubSub α κ) : Decidable (WF ps) := by
  unfold WF; infer_instance

/-! ## Association-list lemmas -/

theorem alistGet_alistSet_self (k : σ) (v : β) (m : List (σ × β)) :
    alistGet k (alistSet k v m) = some v := by
  induction m with
  | nil => simp [alistGet, alistSet]
  | cons e rest ih =>
    by_cases h : k = e.1
    · simp [alistGet, alistSet, h]
    · simpa [alistGet, alistSet, h] using ih

theorem alistSet_of_get_eq {k : σ} {v : β} {m : List (σ × β)}
    (h : alistGet k m = some v) : alistSet k v m = m := by
  induction m with
  | nil => simp [alistGet] at h
  | cons e rest ih =>
    obtain ⟨a, b⟩ := e
    by_cases hk : k = a
    · simp only [alistGet, if_pos hk] at h
      subst hk
      injection h with h
      subst h
      simp [alistSet]
    · simp only [alistGet, if_neg hk] at h
      simp [alistSet, hk, ih h]

theorem alistGet_alistSet_ne {k k' : σ} (v : β) (m : List (σ × β))
    (h : k ≠ k') : alistGet k (alistSet k' v m) = alistGet k m := by
  induction m with
  | nil => simp [alistGet, alistSet, h]
  | cons e rest ih =>
    by_cases hk : k' = e.1
    · subst hk
      simp [alistGet, alistSet, h]
    · by_cases hke : k = e.1 <;> simp [alistGet, alistSet, hk, hke, ih]

theorem alistGet_mem {k : σ} {v : β} {m : List (σ × β)}
    (h : alistGet k m = some v) : (k, v) ∈ m := by
  induction m with
  | nil => simp [alistGet] at h
  | cons e rest ih =>
    obtain ⟨a, b⟩ := e
    by_cases hk : k = a
    · simp only [alistGet, if_pos hk] at h
      subst hk
      injection h with h
      subst h
      exact List.mem_cons_self _ _
    · simp only [alistGet, if_neg hk] at h
      exact List.mem_cons_of_mem _ (ih h)

theorem alistGet_eq_none {k : σ} {m : List (σ × β)} :
    alistGet k m = none ↔ ∀ v, (k, v) ∉ m := by
  induction m with
  | nil => simp [alistGet]
  | cons e rest ih =>
    obtain ⟨a, b⟩ := e
    by_cases hk : k = a
    · subst hk
      simp only [alistGet, if_pos rfl]
      constructor
      · intro h; cases h
      · intro h
        exact absurd (List.mem_cons_self (k, b) rest) (h b)
    · simp only [alistGet, if_neg hk, ih]
      constructor
      · intro h v hv
        rcases List.mem_cons.mp hv with h1 | h1
        · exact hk (congrArg Prod.fst h1)
        · exact h v h1
      · intro h v hv
        exact h v (List.mem_cons_of_mem _ hv)

theorem alistSet_map_fst_of_get {k : σ} {v : β} {m : List (σ × β)}
    (h : (alistGet k m).isSome) :
    (alistSet k v m).map Prod.fst = m.map Prod.fst := by
  induction m with
  | nil => simp [alistGet] at h
  | cons e rest ih =>
    by_cases hk : k = e.1
    · simp [alistSet, hk]
    · simp only [alistGet, if_neg hk] at h
      simp [alistSet, hk, ih h]

theorem alistGet_alistRemove_self {k : σ} {m : List (σ × β)}
    (h : (m.map Prod.fst).Nodup) : alistGet k (alistRemove k m) = none := by
  induction m with
  | nil => simp [alistRemove, alistGet]
  | cons e rest ih =>
    simp only [List.map_cons, List.nodup_cons] at h
    by_cases hk : k = e.1
    · subst hk
      rw [alistRemove, if_pos rfl, alistGet_eq_none]
      intro v hv
      exact h.1 (List.mem_map.mpr ⟨(e.1, v), hv, rfl⟩)
    · rw [alistRemove, if_neg hk, alistGet, if_neg hk]
      exact ih h.2

theorem alistGet_alistRemove_ne {k k' : σ} (m : List (σ × β))
    (h : k ≠ k') : alistGet k (alistRemove k' m) = alistGet k m := by
  induction m with
  | nil => simp [alistRemove]
  | cons e rest ih =>
    by_cases hk : k' = e.1
    · subst hk
      rw [alistRemove, if_pos rfl, alistGet, if_neg h]
    · by_cases hke : k = e.1
      · rw [alistRemove, if_neg hk, alistGet, if_pos hke, alistGet, if_pos hke]
      · rw [alistRemove, if_neg hk, alistGet, if_neg hke, alistGet, if_neg hke,
          ih]

theorem alistRemove_of_get_none {k : σ} {m : List (σ × β)}
    (h : alistGet k m = none) : alistRemove k m = m := by
  induction m with
  | nil => rfl
  | cons e rest ih =>
    by_cases hk : k = e.1
    · rw [alistGet, if_pos hk] at h
      cases h
    · rw [alistGet, if_neg hk] at h
      rw [alistRemove, if_neg hk, ih h]

/-! ## `BTreeSet` lemmas -/

theorem btreeInsert_fst_of_not_mem {x : α} {s : List α} (h : x ∉ s) :
    (btreeInsert x s).1 = true := by
  induction s with
  | nil => rfl
  | cons y ys ih =>
    simp only [List.mem_cons, not_or] at h
    rw [btreeInsert]
    by_cases hlt : x < y
    · simp [hlt]
    · simp [hlt, h.1, ih h.2]

theorem btreeInsert_of_mem {x : α} {s : List α} (hs : s.Pairwise (· < ·))
    (h : x ∈ s) : btreeInsert x s = (false, s) := by
  induction s with
  | nil => cases h
  | cons y ys ih =>
    rw [List.pairwise_cons] at hs
    rcases List.mem_cons.mp h with h1 | h1
    · subst h1
      rw [btreeInsert, if_neg (lt_irrefl x), if_pos rfl]
    · have hlt : ¬ x < y := not_lt_of_lt (hs.1 x h1)
      have hne : x ≠ y := ne_of_gt (hs.1 x h1)
      rw [btreeInsert, if_neg hlt, if_neg hne, ih hs.2 h1]

theorem mem_btreeInsert_snd {x y : α} {s : List α} :
    y ∈ (btreeInsert x s).2 ↔ y = x ∨ y ∈ s := by
  induction s with
  | nil => simp [btreeInsert]
  | cons z zs ih =>
    rw [btreeInsert]
    by_cases hlt : x < z
    · rw [if_pos hlt]
      simp only [List.mem_cons]
    · rw [if_neg hlt]
      by_cases heq : x = z
      · rw [if_pos heq]
        subst heq
        simp only [List.mem_cons]
        tauto
      · rw [if_neg heq]
        simp only [List.mem_cons, ih]
        tauto

theorem pairwise_btreeInsert (x : α) {s : List α}
    (hs : s.Pairwise (· < ·)) : (btreeInsert x s).2.Pairwise (· < ·) := by
  induction s with
  | nil => simp [btreeInsert]
  | cons y ys ih =>
    rw [List.pairwise_cons] at hs
    rw [btreeInsert]
    by_cases hlt : x < y
    · simp only [if_pos hlt]
      rw [List.pairwise_cons]
      constructor
      · intro b hb
        rcases List.mem_cons.mp hb with h1 | h1
        · exact h1 ▸ hlt
        · exact lt_trans hlt (hs.1 b h1)
      · exact List.pairwise_cons.mpr hs
    · by_cases heq : x = y
      · simp only [if_neg hlt, if_pos heq]
        exact List.pairwise_cons.mpr hs
      · simp only [if_neg hlt, if_neg heq]
        rw [List.pairwise_cons]
        refine ⟨fun b hb => ?_, ih hs.2⟩
        rcases mem_btreeInsert_snd.mp hb with h1 | h1
        · subst h1
          exact lt_of_le_of_ne (not_lt.mp hlt) (Ne.symm heq)
        · exact hs.1 b h1

theorem btreeRemove_of_not_mem {x : α} {s : List α} (h : x ∉ s) :
    btreeRemove x s = (false, s) := by
  induction s with
  | nil => rfl
  | cons y ys ih =>
    simp only [List.mem_cons, not_or] at h
    rw [btreeRemove, if_neg h.1, ih h.2]

theorem btreeRemove_fst {x : α} {s : List α} :
    (btreeRemove x s).1 = true ↔ x ∈ s := by
  induction s with
  | nil => simp [btreeRemove]
  | cons y ys ih =>
    rw [btreeRemove]
    by_cases hxy : x = y
    · simp [hxy]
    · simp [hxy, ih]

theorem btreeRemove_snd_sublist (x : α) (s : List α) :
    (btreeRemove x s).2.Sublist s := by
  induction s with
  | nil => simp [btreeRemove]
  | cons y ys ih =>
    rw [btreeRemove]
    by_cases hxy : x = y
    · simp only [if_pos hxy]
      exact List.sublist_cons_self y ys
    · simp only [if_neg hxy]
      exact List.Sublist.cons₂ y ih

theorem not_mem_btreeRemove_snd {x : α} {s : List α} (hs : s.Nodup) :
    x ∉ (btreeRemove x s).2 := by
  induction s with
  | nil => simp [btreeRemove]
  | cons y ys ih =>
    rw [List.nodup_cons] at hs
    rw [btreeRemove]
    by_cases hxy : x = y
    · subst hxy
      simpa using hs.1
    · simp only [if_neg hxy, List.mem_cons, not_or]
      exact ⟨hxy, ih hs.2⟩

theorem mem_btreeRemove_snd_of_ne {x y : α} {s : List α} (h : y ≠ x) :
    y ∈ (btreeRemove x s).2 ↔ y ∈ s := by
  induction s with
  | nil => simp [btreeRemove]
  | cons z zs ih =>
    rw [btreeRemove]
    by_cases hxz : x = z
    · subst hxz
      simp [h]
    · simp [hxz, ih]

/-! ## `uniqueAux` (itertools `unique`) lemmas -/

theorem mem_uniqueAux {y : α} {seen l : List α} :
    y ∈ uniqueAux seen l ↔ y ∈ l ∧ y ∉ seen := by
  induction l generalizing seen with
  | nil => simp [uniqueAux]
  | cons x xs ih =>
    rw [uniqueAux]
    by_cases hx : x ∈ seen
    · rw [if_pos hx, ih]
      simp only [List.mem_cons]
      constructor
      · exact fun h => ⟨Or.inr h.1, h.2⟩
      · rintro ⟨h1 | h1, h2⟩
        · exact absurd (h1 ▸ hx) h2
        · exact ⟨h1, h2⟩
    · rw [if_neg hx]
      simp only [List.mem_cons, ih, not_or]
      constructor
      · rintro (h | ⟨h1, h2, h3⟩)
        · exact ⟨Or.inl h, fun hy => hx (h ▸ hy)⟩
        · exact ⟨Or.inr h1, h3⟩
      · rintro ⟨h1 | h1, h2⟩
        · exact Or.inl h1
        · by_cases hyx : y = x
          · exact Or.inl hyx
          · exact Or.inr ⟨h1, hyx, h2⟩

theorem nodup_uniqueAux (seen l : List α) : (uniqueAux seen l).Nodup := by
  induction l generalizing seen with
  | nil => simp [uniqueAux]
  | cons x xs ih =>
    rw [uniqueAux]
    by_cases hx : x ∈ seen
    · rw [if_pos hx]
      exact ih seen
    · rw [if_neg hx]
      rw [List.nodup_cons]
      refine ⟨fun hmem => ?_, ih (x :: seen)⟩
      exact (mem_uniqueAux.mp hmem).2 (List.mem_cons_self x seen)

theorem uniqueAux_append (l₁ : List α) :
    ∀ seen l₂ : List α, l₁.Nodup → (∀ x ∈ l₁, x ∉ seen) →
      uniqueAux seen (l₁ ++ l₂) = l₁ ++ uniqueAux (l₁.reverse ++ seen) l₂ := by
  induction l₁ with
  | nil => intro seen l₂ _ _; simp
  | cons x xs ih =>
    intro seen l₂ h₁ hd
    rw [List.nodup_cons] at h₁
    rw [List.cons_append, uniqueAux, if_neg (hd x (List.mem_cons_self x xs))]
    have hd' : ∀ a ∈ xs, a ∉ x :: seen := by
      intro a ha
      simp only [List.mem_cons, not_or]
      exact ⟨fun he => h₁.1 (he ▸ ha), hd a (List.mem_cons_of_mem x ha)⟩
    rw [ih (x :: seen) l₂ h₁.2 hd']
    simp [List.append_assoc]

/-! ## Wildcard matcher: the executable matcher agrees with the
declarative semantics -/

theorem starAux_of_suffix {f : List Char → Bool} {s₂ : List Char}
    (s₁ : List Char) (h : f s₂ = true) : starAux f (s₁ ++ s₂) = true := by
  induction s₁ with
  | nil =>
    cases s₂ with
    | nil => simpa [starAux] using h
    | cons c s => simp [starAux, h]
  | cons c s₁ ih =>
    rw [List.cons_append, starAux, ih, Bool.or_true]

theorem globMatch_of_globSpec {p s : List Char} (h : GlobSpec p s) :
    globMatch p s = true := by
  induction h with
  | nil => rfl
  | star h ih => rw [globMatch, if_pos rfl]; exact starAux_of_suffix _ ih
  | any h ih => rw [globMatch, if_neg (by decide)]; simp [litStep, ih]
  | lit hne hq h ih => rw [globMatch, if_neg hne]; simp [litStep, ih]

theorem globSpec_star_inv {p s : List Char} (h : GlobSpec ('*' :: p) s) :
    ∃ s₁ s₂, s = s₁ ++ s₂ ∧ GlobSpec p s₂ := by
  generalize hq : ('*' :: p : List Char) = q at h
  cases h with
  | nil => cases hq
  | star h =>
    injection hq with h1 h2
    subst h2
    exact ⟨_, _, rfl, h⟩
  | any h =>
    injection hq with h1 h2
    exact absurd h1 (by decide)
  | lit hne hq2 h =>
    injection hq with h1 h2
    exact absurd h1.symm hne

theorem globSpec_of_globMatch : ∀ p s, globMatch p s = true → GlobSpec p s := by
  intro p
  induction p with
  | nil =>
    intro s h
    cases s with
    | nil => exact GlobSpec.nil
    | cons c s => simp [globMatch] at h
  | cons c p ih =>
    by_cases hc : c = '*'
    · subst hc
      intro s
      induction s with
      | nil =>
        intro h
        rw [globMatch, if_pos rfl] at h
        have hnil : GlobSpec p [] := ih [] (by simpa [starAux] using h)
        exact show GlobSpec ('*' :: p) ([] ++ []) from GlobSpec.star hnil
      | cons a s ihs =>
        intro h
        rw [globMatch, if_pos rfl, starAux, Bool.or_eq_true] at h
        rcases h with h | h
        · exact show GlobSpec ('*' :: p) ([] ++ (a :: s)) from
            GlobSpec.star (ih _ h)
        · have h' : globMatch ('*' :: p) s = true := by
            rw [globMatch, if_pos rfl]; exact h
          obtain ⟨s₁, s₂, he, hg⟩ := globSpec_star_inv (ihs h')
          subst he
          exact show GlobSpec ('*' :: p) ((a :: s₁) ++ s₂) from GlobSpec.star hg
    · intro s h
      by_cases hq : c = '?'
      · subst hq
        cases s with
        | nil =>
          rw [globMatch, if_neg (by decide), litStep] at h
          cases h
        | cons x s' =>
          rw [globMatch, if_neg (by decide), litStep, Bool.and_eq_true] at h
          exact GlobSpec.any (ih _ h.2)
      · cases s with
        | nil =>
          rw [globMatch, if_neg hc, litStep] at h
          cases h
        | cons x s' =>
          rw [globMatch, if_neg hc, litStep, Bool.and_eq_true,
            Bool.or_eq_true] at h
          have hcx : c = x := by
            rcases h.1 with h1 | h1
            · exact absurd (of_decide_eq_true h1) hq
            · exact of_decide_eq_true h1
          subst hcx
          exact GlobSpec.lit hc hq (ih _ h.2)

/-! ## Key-set lemmas and preservation of the representation invariant -/

theorem alistGet_none_iff {k : σ} {m : List (σ × β)} :
    alistGet k m = none ↔ k ∉ m.map Prod.fst := by
  induction m with
  | nil => simp [alistGet]
  | cons e rest ih =>
    obtain ⟨a, b⟩ := e
    by_cases hk : k = a
    · subst hk
      simp [alistGet]
    · simp [alistGet, hk, ih]

theorem mem_alistSet {k : σ} {v : β} {e : σ × β} {m : List (σ × β)}
    (h : e ∈ alistSet k v m) : e = (k, v) ∨ e ∈ m := by
  induction m with
  | nil => simpa [alistSet] using h
  | cons f rest ih =>
    obtain ⟨a, b⟩ := f
    by_cases hk : k = a
    · subst hk
      rw [alistSet, if_pos rfl] at h
      rcases List.mem_cons.mp h with h1 | h1
      · exact Or.inl h1
      · exact Or.inr (List.mem_cons_of_mem _ h1)
    · rw [alistSet, if_neg hk] at h
      rcases List.mem_cons.mp h with h1 | h1
      · exact Or.inr (h1 ▸ List.mem_cons_self _ _)
      · rcases ih h1 with h2 | h2
        · exact Or.inl h2
        · exact Or.inr (List.mem_cons_of_mem _ h2)

theorem alistSet_map_fst (k : σ) (v : β) (m : List (σ × β)) :
    (alistSet k v m).map Prod.fst =
      if k ∈ m.map Prod.fst then m.map Prod.fst
      else m.map Prod.fst ++ [k] := by
  induction m with
  | nil => simp [alistSet]
  | cons e rest ih =>
    obtain ⟨a, b⟩ := e
    by_cases hk : k = a
    · subst hk
      simp [alistSet]
    · by_cases hm : k ∈ rest.map Prod.fst <;>
        simp [alistSet, hk, hm, ih, List.mem_cons]

theorem nodup_alistSet_map_fst {k : σ} {v : β} {m : List (σ × β)}
    (h : (m.map Prod.fst).Nodup) : ((alistSet k v m).map Prod.fst).Nodup := by
  rw [alistSet_map_fst]
  by_cases hm : k ∈ m.map Prod.fst
  · simpa [hm] using h
  · simp only [if_neg hm]
    rw [List.nodup_append]
    refine ⟨h, List.nodup_singleton k, fun a ha hak => ?_⟩
    rw [List.mem_singleton] at hak
    exact hm (hak ▸ ha)

theorem alistRemove_map_fst_sublist (k : σ) (m : List (σ × β)) :
    ((alistRemove k m).map Prod.fst).Sublist (m.map Prod.fst) := by
  induction m with
  | nil => simp [alistRemove]
  | cons e rest ih =>
    by_cases hk : k = e.1
    · rw [alistRemove, if_pos hk]
      simp only [List.map_cons]
      exact List.sublist_cons_self _ _
    · rw [alistRemove, if_neg hk]
      simp only [List.map_cons]
      exact List.Sublist.cons₂ _ ih

theorem pairwise_getD {T : List (String × List α)}
    (hT : ∀ e ∈ T, e.2.Pairwise (· < ·)) (ch : String) :
    ((alistGet ch T).getD []).Pairwise (· < ·) := by
  cases hg : alistGet ch T with
  | none => simp
  | some s => simpa using hT (ch, s) (alistGet_mem hg)

theorem table_update_WF {T : List (String × List α)} {s' : List α}
    (hk : (T.map Prod.fst).Nodup) (hT : ∀ e ∈ T, e.2.Pairwise (· < ·))
    (hs : s'.Pairwise (· < ·)) (ch : String) :
    ((alistSet ch s' T).map Prod.fst).Nodup ∧
      ∀ e ∈ alistSet ch s' T, e.2.Pairwise (· < ·) := by
  refine ⟨nodup_alistSet_map_fst hk, fun e he => ?_⟩
  rcases mem_alistSet he with h1 | h1
  · rw [h1]
    exact hs
  · exact hT e h1

theorem WF_new : WF (PubSub.new : PubSub α κ) := by
  refine ⟨?_, ?_, ?_, ?_, ?_⟩ <;> simp [PubSub.new]

theorem WF_add_client {ps : PubSub α κ} (h : WF ps) (id : α) (c : κ) :
    WF (add_client ps id c) := by
  obtain ⟨h1, h2, h3, h4, h5⟩ := h
  exact ⟨nodup_alistSet_map_fst h1, h2, h3, h4, h5⟩

theorem WF_remove_client {ps : PubSub α κ} (h : WF ps) (id : α) :
    WF (remove_client ps id) := by
  obtain ⟨h1, h2, h3, h4, h5⟩ := h
  refine ⟨?_, ?_, ?_, ?_, ?_⟩
  · exact List.Nodup.sublist (alistRemove_map_fst_sublist id ps.clients) h1
  · simpa [remove_client, List.map_map, Function.comp] using h2
  · simpa [remove_client, List.map_map, Function.comp] using h3
  · intro e he
    obtain ⟨f, hf, rfl⟩ := List.mem_map.mp he
    exact List.Pairwise.sublist (btreeRemove_snd_sublist id f.2) (h4 f hf)
  · intro e he
    obtain ⟨f, hf, rfl⟩ := List.mem_map.mp he
    exact List.Pairwise.sublist (btreeRemove_snd_sublist id f.2) (h5 f hf)

theorem sub_client_fst (ps : PubSub α κ) (id : α) (ch : String) :
    (sub_client ps id ch).1 = set_channels_for_subscription ps ch
      (alistSet ch (btreeInsert id
        ((alistGet ch (get_channels_for_subscription ps ch)).getD [])).2
        (get_channels_for_subscription ps ch)) := rfl

theorem unsub_client_fst (ps : PubSub α κ) (id : α) (ch : String) :
    (unsub_client ps id ch).1 =
      match alistGet ch (get_channels_for_subscription ps ch) with
      | none => ps
      | some subbed => set_channels_for_subscription ps ch
          (alistSet ch (btreeRemove id subbed).2
            (get_channels_for_subscription ps ch)) := by
  rw [unsub_client]
  cases alistGet ch (get_channels_for_subscription ps ch) <;> rfl

theorem pairwise_getTable {ps : PubSub α κ} (h : WF ps) (ch : String) :
    ∀ e ∈ get_channels_for_subscription ps ch, e.2.Pairwise (· < ·) := by
  rw [get_channels_for_subscription]
  split
  · exact h.2.2.2.2
  · exact h.2.2.2.1

theorem WF_sub_client {ps : PubSub α κ} (h : WF ps) (id : α) (ch : String) :
    WF (sub_client ps id ch).1 := by
  obtain ⟨h1, h2, h3, h4, h5⟩ := h
  rw [sub_client_fst, set_channels_for_subscription]
  by_cases hp : channel_is_pattern ch
  · rw [if_pos hp, get_channels_for_subscription, if_pos hp]
    have ht := table_update_WF h3 h5
      (pairwise_btreeInsert id (pairwise_getD h5 ch)) ch
    exact ⟨h1, h2, ht.1, h4, ht.2⟩
  · rw [if_neg hp, get_channels_for_subscription, if_neg hp]
    have ht := table_update_WF h2 h4
      (pairwise_btreeInsert id (pairwise_getD h4 ch)) ch
    exact ⟨h1, ht.1, h3, ht.2, h5⟩

theorem WF_unsub_client {ps : PubSub α κ} (h : WF ps) (id : α) (ch : String) :
    WF (unsub_client ps id ch).1 := by
  have hw := h
  obtain ⟨h1, h2, h3, h4, h5⟩ := h
  rw [unsub_client_fst]
  cases hg : alistGet ch (get_channels_for_subscription ps ch) with
  | none => exact ⟨h1, h2, h3, h4, h5⟩
  | some subbed =>
    have hsub : subbed.Pairwise (· < ·) := by
      simpa using pairwise_getTable hw ch (ch, subbed) (alistGet_mem hg)
    have hrm : ((btreeRemove id subbed).2).Pairwise (· < ·) :=
      List.Pairwise.sublist (btreeRemove_snd_sublist id subbed) hsub
    simp only [set_channels_for_subscription]
    by_cases hp : channel_is_pattern ch
    · rw [if_pos hp, get_channels_for_subscription, if_pos hp]
      have ht := table_update_WF h3 h5 hrm ch
      exact ⟨h1, h2, ht.1, h4, ht.2⟩
    · rw [if_neg hp, get_channels_for_subscription, if_neg hp]
      have ht := table_update_WF h2 h4 hrm ch
      exact ⟨h1, ht.1, h3, ht.2, h5⟩

/-! ## `pub_message` lemmas -/

theorem pairwise_lt_nodup {s : List α} (h : s.Pairwise (· < ·)) : s.Nodup :=
  h.imp ne_of_lt

theorem mem_pub_message {ps : PubSub α κ} {ch : String} {i : α} :
    i ∈ (pub_message ps ch).2 ↔
      (i ∈ litSubs ps ch ∨ i ∈ patSubs ps ch) ∧ registered ps i = true := by
  show i ∈ (uniqueAux [] (litSubs ps ch ++ patSubs ps ch)).filter
    (fun j => registered ps j) ↔ _
  rw [List.mem_filter, mem_uniqueAux, List.mem_append]
  simp only [List.not_mem_nil, not_false_iff, and_true]

theorem nodup_pub_message (ps : PubSub α κ) (ch : String) :
    ((pub_message ps ch).2).Nodup :=
  List.Nodup.filter _ (nodup_uniqueAux [] _)

theorem get_set_channels (ps : PubSub α κ) (ch : String)
    (t : List (String × List α)) :
    get_channels_for_subscription (set_channels_for_subscription ps ch t) ch
      = t := by
  rw [get_channels_for_subscription, set_channels_for_subscription]
  by_cases hp : channel_is_pattern ch <;> simp [hp]

theorem set_get_channels (ps : PubSub α κ) (ch : String) :
    set_channels_for_subscription ps ch
      (get_channels_for_subscription ps ch) = ps := by
  rw [get_channels_for_subscription, set_channels_for_subscription]
  by_cases hp : channel_is_pattern ch <;> simp [hp]

theorem set_channels_clients (ps : PubSub α κ) (ch : String)
    (t : List (String × List α)) :
    (set_channels_for_subscription ps ch t).clients = ps.clients := by
  rw [set_channels_for_subscription]
  by_cases hp : channel_is_pattern ch <;> simp [hp]

theorem set_channels_other_pattern (ps : PubSub α κ) {ch : String}
    (t : List (String × List α)) (hp : channel_is_pattern ch = true) :
    (set_channels_for_subscription ps ch t).channels = ps.channels := by
  rw [set_channels_for_subscription, if_pos hp]

theorem set_channels_other_literal (ps : PubSub α κ) {ch : String}
    (t : List (String × List α)) (hp : channel_is_pattern ch = false) :
    (set_channels_for_subscription ps ch t).pattern_channels
      = ps.pattern_channels := by
  rw [set_channels_for_subscription, if_neg (by simp [hp])]

/-! ## Claim theorems -/

/-- C1. For every registry state and published channel name, `pub_message`
invokes `send` exactly once per unique subscriber identifier that is
registered in the client table — even when the identifier occurs both in
the literal-channel set and in one or more matching pattern-channel sets —
and zero times otherwise: the merged literal and pattern collections are
deduplicated by identifier before delivery. -/
theorem pub_message_count_delivery (ps : PubSub α κ) (ch : String) (i : α) :
    ((pub_message ps ch).2).count i =
      if (i ∈ litSubs ps ch ∨ i ∈ patSubs ps ch) ∧ registered ps i = true
      then 1 else 0 := by
  by_cases h : (i ∈ litSubs ps ch ∨ i ∈ patSubs ps ch) ∧
      registered ps i = true
  · rw [if_pos h]
    exact List.count_eq_one_of_mem (nodup_pub_message ps ch)
      (mem_pub_message.mpr h)
  · rw [if_neg h]
    exact List.count_eq_zero.mpr (fun hm => h (mem_pub_message.mp hm))

/-- C3. The wildcard matcher implements full-string-anchored glob
semantics (`*` — zero or more arbitrary characters, `?` — exactly one
arbitrary character, other characters literal), with the published name
as subject and the stored pattern as pattern; in particular
`"channel.*"` matches `"channel.a"` and `"channel.b"` but not
`"other.a"`, and `"channel.?"` matches `"channel.a"` but not
`"channel.ab"`. -/
theorem wildcard_match_spec :
    (∀ p s : List Char, globMatch p s = true ↔ GlobSpec p s) ∧
    wildMatch "channel.*" "channel.a" = true ∧
    wildMatch "channel.*" "channel.b" = true ∧
    wildMatch "channel.*" "other.a" = false ∧
    wildMatch "channel.?" "channel.a" = true ∧
    wildMatch "channel.?" "channel.ab" = false := by
  refine ⟨fun p s => ⟨globSpec_of_globMatch p s, globMatch_of_globSpec⟩,
    ?_, ?_, ?_, ?_, ?_⟩ <;> decide

/-- C7. An identifier present in a selected subscriber set but absent
from the client table is skipped silently by `pub_message` (no delivery,
no error), while every registered subscriber is still delivered to. -/
theorem pub_message_skips_unregistered (ps : PubSub α κ) (ch : String)
    (i : α) :
    (registered ps i = false → ((pub_message ps ch).2).count i = 0) ∧
    (∀ j : α, registered ps j = true →
      j ∈ litSubs ps ch ∨ j ∈ patSubs ps ch → j ∈ (pub_message ps ch).2) := by
  constructor
  · intro hreg
    refine List.count_eq_zero.mpr (fun hm => ?_)
    rw [(mem_pub_message.mp hm).2] at hreg
    cases hreg
  · intro j hreg hj
    exact mem_pub_message.mpr ⟨hj, hreg⟩

/-- C8. `pub_message` never errors and leaves the whole registry state
unchanged, and publishing to a channel with zero literal subscribers and
zero matching pattern subscribers performs no delivery. -/
theorem pub_message_reads_only (ps : PubSub α κ) (ch : String) :
    (pub_message ps ch).1 = ps ∧
    (litSubs ps ch = [] →
      (∀ e ∈ ps.pattern_channels, wildMatch e.1 ch = true → e.2 = []) →
      (pub_message ps ch).2 = []) := by
  refine ⟨rfl, fun hlit hpat => ?_⟩
  have hp : patSubs ps ch = [] := by
    rw [patSubs, List.flatten_eq_nil_iff]
    intro l hl
    obtain ⟨e, he, rfl⟩ := List.mem_map.mp hl
    have hmf := List.mem_filter.mp he
    exact hpat e hmf.1 hmf.2
  show (uniqueAux [] (litSubs ps ch ++ patSubs ps ch)).filter
    (fun j => registered ps j) = []
  rw [hlit, hp]
  rfl

/-- C9. `add_client` never errors: it inserts the client-table entry
keyed by the client's identifier, silently replacing any previous record
with that identifier (last-write-wins), and leaves both subscription
tables untouched. -/
theorem add_client_overwrites (ps : PubSub α κ) (id : α) (c : κ) :
    alistGet id (add_client ps id c).clients = some c ∧
    (∀ j : α, j ≠ id →
      alistGet j (add_client ps id c).clients = alistGet j ps.clients) ∧
    (add_client ps id c).channels = ps.channels ∧
    (add_client ps id c).pattern_channels = ps.pattern_channels :=
  ⟨alistGet_alistSet_self id c ps.clients,
   fun j hj => alistGet_alistSet_ne c ps.clients hj, rfl, rfl⟩

/-- A registry reached through the public operations: clients `1` and
`2` added, `1` subscribed to the pattern `"x*"`, `2` subscribed to the
literal channel `"x"`. -/
def psC2 : PubSub Nat Unit :=
  let p0 : PubSub Nat Unit := PubSub.new
  let p1 := add_client p0 1 ()
  let p2 := add_client p1 2 ()
  let p3 := (sub_client p2 1 "x*").1
  (sub_client p3 2 "x").1

/-- C2 counterexample. The delivery sequence of `pub_message` is not
sorted in ascending identifier order: publishing `"x"` on `psC2`
delivers to `2` (literal subscriber) before `1` (pattern subscriber). -/
theorem pub_message_unsorted_counterexample :
    (pub_message psC2 "x").2 = [2, 1] ∧
    ¬ ((pub_message psC2 "x").2).Pairwise (· ≤ ·) := by decide

/-- C2 amended. The delivery sequence is duplicate-free; the registered
literal-channel subscribers are delivered first, in ascending identifier
order, followed by the pattern-only subscribers (so the sequence as a
whole need not be globally ascending). -/
theorem pub_message_delivery_order (ps : PubSub α κ) (ch : String)
    (h : WF ps) :
    ∃ rest : List α,
      (pub_message ps ch).2 =
        (litSubs ps ch).filter (fun i => registered ps i) ++ rest ∧
      ((litSubs ps ch).filter (fun i => registered ps i)).Pairwise (· < ·) ∧
      ((pub_message ps ch).2).Nodup ∧
      ∀ x ∈ rest, x ∈ patSubs ps ch ∧ x ∉ litSubs ps ch := by
  have hlit : (litSubs ps ch).Pairwise (· < ·) := by
    rw [litSubs]
    exact pairwise_getD h.2.2.2.1 ch
  have hnd : (litSubs ps ch).Nodup := pairwise_lt_nodup hlit
  have happ := uniqueAux_append (litSubs ps ch) [] (patSubs ps ch) hnd
    (fun x _ => List.not_mem_nil x)
  refine ⟨(uniqueAux ((litSubs ps ch).reverse ++ []) (patSubs ps ch)).filter
    (fun i => registered ps i), ?_, hlit.filter _, nodup_pub_message ps ch,
    ?_⟩
  · show (uniqueAux [] (litSubs ps ch ++ patSubs ps ch)).filter
      (fun i => registered ps i) = _
    rw [happ, List.filter_append]
  · intro x hx
    have hxm := mem_uniqueAux.mp (List.mem_filter.mp hx).1
    refine ⟨hxm.1, fun hmem => hxm.2 ?_⟩
    rw [List.mem_append, List.mem_reverse]
    exact Or.inl hmem

/-- C2 amended, witness: the conclusion instantiated at `psC2` and the
published channel `"x"`. -/
theorem pub_message_delivery_order_witness :
    ∃ rest : List Nat,
      (pub_message psC2 "x").2 =
        (litSubs psC2 "x").filter (fun i => registered psC2 i) ++ rest ∧
      ((litSubs psC2 "x").filter (fun i => registered psC2 i)).Pairwise
        (· < ·) ∧
      ((pub_message psC2 "x").2).Nodup ∧
      ∀ x ∈ rest, x ∈ patSubs psC2 "x" ∧ x ∉ litSubs psC2 "x" :=
  pub_message_delivery_order psC2 "x" (by decide)

theorem sub_client_snd (ps : PubSub α κ) (id : α) (ch : String) :
    (sub_client ps id ch).2 =
      if (btreeInsert id
          ((alistGet ch (get_channels_for_subscription ps ch)).getD [])).1
      then Except.ok ()
      else Except.error PubSubError.ClientAlreadySubscribedError := rfl

theorem unsub_client_none {ps : PubSub α κ} {id : α} {ch : String}
    (hg : alistGet ch (get_channels_for_subscription ps ch) = none) :
    unsub_client ps id ch =
      (ps, Except.error PubSubError.ChannelDoesNotExistError) := by
  rw [unsub_client, hg]

theorem unsub_client_some {ps : PubSub α κ} {id : α} {ch : String}
    {s : List α}
    (hg : alistGet ch (get_channels_for_subscription ps ch) = some s) :
    unsub_client ps id ch =
      (set_channels_for_subscription ps ch (alistSet ch (btreeRemove id s).2
        (get_channels_for_subscription ps ch)),
       if (btreeRemove id s).1 then Except.ok ()
       else Except.error PubSubError.ClientNotSubscribedError) := by
  rw [unsub_client, hg]

/-- C4. `sub_client` selects the pattern table iff the channel name
contains a wildcard, adds the identifier to that channel's subscriber
set and returns `Ok(())` when the identifier was new, and returns
`ClientAlreadySubscribedError` leaving the whole state unchanged when it
was already present. -/
theorem sub_client_spec (ps : PubSub α κ) (id : α) (ch : String)
    (h : WF ps) :
    (id ∉ (alistGet ch (get_channels_for_subscription ps ch)).getD [] →
      (sub_client ps id ch).2 = Except.ok () ∧
      id ∈ (alistGet ch (get_channels_for_subscription
        (sub_client ps id ch).1 ch)).getD [] ∧
      (channel_is_pattern ch = true →
        (sub_client ps id ch).1.channels = ps.channels) ∧
      (channel_is_pattern ch = false →
        (sub_client ps id ch).1.pattern_channels = ps.pattern_channels) ∧
      (sub_client ps id ch).1.clients = ps.clients) ∧
    (id ∈ (alistGet ch (get_channels_for_subscription ps ch)).getD [] →
      (sub_client ps id ch).2 =
        Except.error PubSubError.ClientAlreadySubscribedError ∧
      (sub_client ps id ch).1 = ps) := by
  constructor
  · intro hnm
    have hins : (btreeInsert id ((alistGet ch
        (get_channels_for_subscription ps ch)).getD [])).1 = true :=
      btreeInsert_fst_of_not_mem hnm
    refine ⟨?_, ?_, ?_, ?_, ?_⟩
    · rw [sub_client_snd, hins]
      rfl
    · rw [sub_client_fst, get_set_channels, alistGet_alistSet_self]
      exact mem_btreeInsert_snd.mpr (Or.inl rfl)
    · intro hp
      rw [sub_client_fst]
      exact set_channels_other_pattern ps _ hp
    · intro hp
      rw [sub_client_fst]
      exact set_channels_other_literal ps _ hp
    · rw [sub_client_fst]
      exact set_channels_clients ps ch _
  · intro hmem
    cases hg : alistGet ch (get_channels_for_subscription ps ch) with
    | none =>
      rw [hg] at hmem
      exact absurd hmem (List.not_mem_nil id)
    | some s =>
      rw [hg] at hmem
      have hmem' : id ∈ s := hmem
      have hps : s.Pairwise (· < ·) := by
        simpa using pairwise_getTable h ch (ch, s) (alistGet_mem hg)
      have hins := btreeInsert_of_mem hps hmem'
      constructor
      · rw [sub_client_snd, hg]
        show (if (btreeInsert id s).1 then _ else _) = _
        rw [hins]
        rfl
      · rw [sub_client_fst, hg]
        show set_channels_for_subscription ps ch
          (alistSet ch (btreeInsert id s).2
            (get_channels_for_subscription ps ch)) = ps
        rw [hins]
        show set_channels_for_subscription ps ch
          (alistSet ch s (get_channels_for_subscription ps ch)) = ps
        rw [alistSet_of_get_eq hg, set_get_channels]

/-- A registry with client `1` subscribed to the literal channel `"a"`
(no client-table entry is needed for subscribing). -/
def psSubA : PubSub Nat Unit :=
  (sub_client (PubSub.new : PubSub Nat Unit) 1 "a").1

/-- C4 witness: a fresh subscription succeeds on the empty registry, and
re-subscribing the same identifier on `psSubA` fails with
`ClientAlreadySubscribedError` without changing the state. -/
theorem sub_client_spec_witness :
    (sub_client (PubSub.new : PubSub Nat Unit) 1 "a").2 = Except.ok () ∧
    (sub_client psSubA 1 "a").2 =
      Except.error PubSubError.ClientAlreadySubscribedError ∧
    (sub_client psSubA 1 "a").1 = psSubA :=
  ⟨((sub_client_spec (PubSub.new : PubSub Nat Unit) 1 "a"
      (by decide)).1 (by decide)).1,
   ((sub_client_spec psSubA 1 "a" (by decide)).2 (by decide)).1,
   ((sub_client_spec psSubA 1 "a" (by decide)).2 (by decide)).2⟩

/-- C5. `unsub_client` keys the table selected by the literal/pattern
classification with the exact channel string: it fails with
`ChannelDoesNotExistError` when no subscriber set was ever created under
that key, fails with `ClientNotSubscribedError` when the set exists but
lacks the identifier (both errors leaving the state unchanged), and
otherwise removes the identifier and returns `Ok(())`. -/
theorem unsub_client_spec (ps : PubSub α κ) (id : α) (ch : String)
    (h : WF ps) :
    (alistGet ch (get_channels_for_subscription ps ch) = none →
      unsub_client ps id ch =
        (ps, Except.error PubSubError.ChannelDoesNotExistError)) ∧
    (∀ s : List α,
      alistGet ch (get_channels_for_subscription ps ch) = some s →
      id ∉ s →
      unsub_client ps id ch =
        (ps, Except.error PubSubError.ClientNotSubscribedError)) ∧
    (∀ s : List α,
      alistGet ch (get_channels_for_subscription ps ch) = some s →
      id ∈ s →
      (unsub_client ps id ch).2 = Except.ok () ∧
      id ∉ (alistGet ch (get_channels_for_subscription
        (unsub_client ps id ch).1 ch)).getD [] ∧
      (∀ j : α, j ≠ id →
        (j ∈ (alistGet ch (get_channels_for_subscription
          (unsub_client ps id ch).1 ch)).getD [] ↔ j ∈ s)) ∧
      (channel_is_pattern ch = true →
        (unsub_client ps id ch).1.channels = ps.channels) ∧
      (channel_is_pattern ch = false →
        (unsub_client ps id ch).1.pattern_channels = ps.pattern_channels) ∧
      (unsub_client ps id ch).1.clients = ps.clients) := by
  refine ⟨fun hg => unsub_client_none hg, ?_, ?_⟩
  · intro s hg hnm
    rw [unsub_client_some hg, btreeRemove_of_not_mem hnm]
    show (set_channels_for_subscription ps ch
      (alistSet ch s (get_channels_for_subscription ps ch)), _) = _
    rw [alistSet_of_get_eq hg, set_get_channels]
    rfl
  · intro s hg hmem
    have hps : s.Pairwise (· < ·) := by
      simpa using pairwise_getTable h ch (ch, s) (alistGet_mem hg)
    have hfst : (btreeRemove id s).1 = true := btreeRemove_fst.mpr hmem
    have hget : (alistGet ch (get_channels_for_subscription
        (unsub_client ps id ch).1 ch)).getD [] = (btreeRemove id s).2 := by
      rw [unsub_client_some hg]
      show (alistGet ch (get_channels_for_subscription
        (set_channels_for_subscription ps ch (alistSet ch (btreeRemove id s).2
          (get_channels_for_subscription ps ch))) ch)).getD [] = _
      rw [get_set_channels, alistGet_alistSet_self]
      rfl
    refine ⟨?_, ?_, ?_, ?_, ?_, ?_⟩
    · rw [unsub_client_some hg]
      show (if (btreeRemove id s).1 then _ else _) = _
      rw [hfst]
      rfl
    · rw [hget]
      exact not_mem_btreeRemove_snd (pairwise_lt_nodup hps)
    · intro j hj
      rw [hget]
      exact mem_btreeRemove_snd_of_ne hj
    · intro hp
      rw [unsub_client_some hg]
      exact set_channels_other_pattern ps _ hp
    · intro hp
      rw [unsub_client_some hg]
      exact set_channels_other_literal ps _ hp
    · rw [unsub_client_some hg]
      exact set_channels_clients ps ch _

/-- C5 witness: unsubscribing from the never-created channel `"ghost"`
fails with `ChannelDoesNotExistError`; unsubscribing identifier `2`,
which is not in `"a"`'s set, fails with `ClientNotSubscribedError`
without changing the state; unsubscribing identifier `1` succeeds and
removes it. -/
theorem unsub_client_spec_witness :
    unsub_client (PubSub.new : PubSub Nat Unit) 1 "ghost" =
      (PubSub.new, Except.error PubSubError.ChannelDoesNotExistError) ∧
    unsub_client psSubA 2 "a" =
      (psSubA, Except.error PubSubError.ClientNotSubscribedError) ∧
    (unsub_client psSubA 1 "a").2 = Except.ok () ∧
    1 ∉ (alistGet "a" (get_channels_for_subscription
      (unsub_client psSubA 1 "a").1 "a")).getD [] :=
  ⟨(unsub_client_spec (PubSub.new : PubSub Nat Unit) 1 "ghost"
      (by decide)).1 (by decide),
   (unsub_client_spec psSubA 2 "a" (by decide)).2.1 [1] (by decide)
     (by decide),
   ((unsub_client_spec psSubA 1 "a" (by decide)).2.2 [1] (by decide)
     (by decide)).1,
   ((unsub_client_spec psSubA 1 "a" (by decide)).2.2 [1] (by decide)
     (by decide)).2.1⟩

theorem map_btreeRemove_id {id : α} {l : List (String × List α)}
    (hl : ∀ e ∈ l, id ∉ e.2) :
    l.map (fun e => (e.1, (btreeRemove id e.2).2)) = l := by
  induction l with
  | nil => rfl
  | cons e t ih =>
    rw [List.map_cons, ih (fun f hf => hl f (List.mem_cons_of_mem _ hf)),
      btreeRemove_of_not_mem (hl e (List.mem_cons_self _ _))]

/-- C6. `remove_client` deletes the client-table entry and purges the
identifier from every literal and pattern subscriber set, so that no set
in either table still contains it and a subsequent `pub_message` on any
channel never delivers to it; removing an absent client is a no-op, not
an error. -/
theorem remove_client_purges (ps : PubSub α κ) (id : α) (h : WF ps) :
    alistGet id (remove_client ps id).clients = none ∧
    (∀ e ∈ (remove_client ps id).channels, id ∉ e.2) ∧
    (∀ e ∈ (remove_client ps id).pattern_channels, id ∉ e.2) ∧
    (∀ ch : String,
      ((pub_message (remove_client ps id) ch).2).count id = 0) ∧
    (alistGet id ps.clients = none →
      (∀ e ∈ ps.channels, id ∉ e.2) →
      (∀ e ∈ ps.pattern_channels, id ∉ e.2) →
      remove_client ps id = ps) := by
  have hcl : alistGet id (remove_client ps id).clients = none := by
    show alistGet id (alistRemove id ps.clients) = none
    exact alistGet_alistRemove_self h.1
  have hchan : ∀ e ∈ (remove_client ps id).channels, id ∉ e.2 := by
    intro e he
    obtain ⟨f, hf, rfl⟩ := List.mem_map.mp he
    exact not_mem_btreeRemove_snd (pairwise_lt_nodup (h.2.2.2.1 f hf))
  have hpat : ∀ e ∈ (remove_client ps id).pattern_channels, id ∉ e.2 := by
    intro e he
    obtain ⟨f, hf, rfl⟩ := List.mem_map.mp he
    exact not_mem_btreeRemove_snd (pairwise_lt_nodup (h.2.2.2.2 f hf))
  refine ⟨hcl, hchan, hpat, ?_, ?_⟩
  · intro ch
    refine List.count_eq_zero.mpr (fun hm => ?_)
    have hreg := (mem_pub_message.mp hm).2
    rw [registered, hcl] at hreg
    exact Bool.noConfusion hreg
  · intro hc hch hpc
    rw [remove_client, alistRemove_of_get_none hc, map_btreeRemove_id hch,
      map_btreeRemove_id hpc]

/-- A registry with client `1` added and subscribed to the literal
channel `"a"` and to the pattern channel `"a*"`. -/
def psC6 : PubSub Nat Unit :=
  let p0 : PubSub Nat Unit := PubSub.new
  let p1 := add_client p0 1 ()
  let p2 := (sub_client p1 1 "a").1
  (sub_client p2 1 "a*").1

/-- C6 witness: removing client `1` from `psC6` deletes its client-table
entry and publishing afterwards no longer delivers to it; removing a
client from the empty registry is a no-op. -/
theorem remove_client_purges_witness :
    alistGet 1 (remove_client psC6 1).clients = none ∧
    ((pub_message (remove_client psC6 1) "a").2).count 1 = 0 ∧
    remove_client (PubSub.new : PubSub Nat Unit) 1 = PubSub.new :=
  ⟨(remove_client_purges psC6 1 (by decide)).1,
   (remove_client_purges psC6 1 (by decide)).2.2.2.1 "a",
   (remove_client_purges (PubSub.new : PubSub Nat Unit) 1
     (by decide)).2.2.2.2 (by decide) (by decide) (by decide)⟩

theorem set_channels_pattern_field (ps : PubSub α κ) {ch : String}
    (t : List (String × List α)) (hp : channel_is_pattern ch = true) :
    (set_channels_for_subscription ps ch t).pattern_channels = t := by
  rw [set_channels_for_subscription, if_pos hp]

theorem set_channels_literal_field (ps : PubSub α κ) {ch : String}
    (t : List (String × List α)) (hp : channel_is_pattern ch = false) :
    (set_channels_for_subscription ps ch t).channels = t := by
  rw [set_channels_for_subscription, if_neg (by simp [hp])]

/-- C10. Channel entries, once created by `sub_client`, are preserved:
`unsub_client` and `remove_client` never delete an entry, only shrink
its set, so an empty subscriber set is a reachable state; unsubscribing
from a channel whose set exists but is empty yields
`ClientNotSubscribedError`, not `ChannelDoesNotExistError`, and leaves
the state unchanged. -/
theorem channel_entries_persist (ps : PubSub α κ) (id : α) (ch : String) :
    ((unsub_client ps id ch).1.channels.map Prod.fst =
      ps.channels.map Prod.fst) ∧
    ((unsub_client ps id ch).1.pattern_channels.map Prod.fst =
      ps.pattern_channels.map Prod.fst) ∧
    ((remove_client ps id).channels.map Prod.fst =
      ps.channels.map Prod.fst) ∧
    ((remove_client ps id).pattern_channels.map Prod.fst =
      ps.pattern_channels.map Prod.fst) ∧
    (alistGet ch (get_channels_for_subscription ps ch) = some [] →
      unsub_client ps id ch =
        (ps, Except.error PubSubError.ClientNotSubscribedError)) := by
  have hremc : (remove_client ps id).channels.map Prod.fst =
      ps.channels.map Prod.fst := by
    show (ps.channels.map (fun e => (e.1, (btreeRemove id e.2).2))).map
      Prod.fst = _
    rw [List.map_map]
    rfl
  have hremp : (remove_client ps id).pattern_channels.map Prod.fst =
      ps.pattern_channels.map Prod.fst := by
    show (ps.pattern_channels.map
      (fun e => (e.1, (btreeRemove id e.2).2))).map Prod.fst = _
    rw [List.map_map]
    rfl
  have hkeys : ((unsub_client ps id ch).1.channels.map Prod.fst =
      ps.channels.map Prod.fst) ∧
      ((unsub_client ps id ch).1.pattern_channels.map Prod.fst =
        ps.pattern_channels.map Prod.fst) := by
    cases hg : alistGet ch (get_channels_for_subscription ps ch) with
    | none => rw [unsub_client_none hg]; exact ⟨rfl, rfl⟩
    | some s =>
      rw [unsub_client_some hg]
      have hsome : (alistGet ch (get_channels_for_subscription ps ch)).isSome
        := by rw [hg]; rfl
      by_cases hp : channel_is_pattern ch
      · rw [set_channels_other_pattern ps _ hp,
          set_channels_pattern_field ps _ hp]
        refine ⟨rfl, ?_⟩
        rw [get_channels_for_subscription, if_pos hp] at hsome ⊢
        exact alistSet_map_fst_of_get hsome
      · have hp' : channel_is_pattern ch = false := by
          simpa using hp
        rw [set_channels_other_literal ps _ hp',
          set_channels_literal_field ps _ hp']
        refine ⟨?_, rfl⟩
        rw [get_channels_for_subscription, if_neg hp] at hsome ⊢
        exact alistSet_map_fst_of_get hsome
  refine ⟨hkeys.1, hkeys.2, hremc, hremp, fun hg => ?_⟩
  rw [unsub_client_some hg]
  show (set_channels_for_subscription ps ch
    (alistSet ch ([] : List α) (get_channels_for_subscription ps ch)), _) = _
  rw [alistSet_of_get_eq hg, set_get_channels]
  rfl

/-- A registry whose literal channel `"a"` has an empty subscriber set:
client `1` subscribed to `"a"` and then unsubscribed. -/
def psC10 : PubSub Nat Unit := (unsub_client psSubA 1 "a").1

/-- C10 witness: on `psC10` — reached by subscribe followed by
unsubscribe, so the `"a"` entry exists with an empty set — a further
unsubscribe fails with `ClientNotSubscribedError`, not
`ChannelDoesNotExistError`. -/
theorem channel_entries_persist_witness :
    unsub_client psC10 1 "a" =
      (psC10, Except.error PubSubError.ClientNotSubscribedError) :=
  (channel_entries_persist psC10 1 "a").2.2.2.2 (by decide)

/-- A registry where identifiers `1` and `2` are both subscribed to the
literal channel `"a"` but only `2` was added to the client table. -/
def psC7 : PubSub Nat Unit :=
  let p1 := (sub_client (PubSub.new : PubSub Nat Unit) 1 "a").1
  let p2 := (sub_client p1 2 "a").1
  add_client p2 2 ()

/-- C7 witness: publishing `"a"` on `psC7` delivers nothing to the
unregistered subscriber `1` and still delivers to the registered
subscriber `2`. -/
theorem pub_message_skips_unregistered_witness :
    ((pub_message psC7 "a").2).count 1 = 0 ∧
    2 ∈ (pub_message psC7 "a").2 :=
  ⟨(pub_message_skips_unregistered psC7 "a" 1).1 (by decide),
   (pub_message_skips_unregistered psC7 "a" 1).2 2 (by decide) (by decide)⟩

/-- A registry with a literal subscription to `"b"` and a pattern
subscription to `"c*"`, neither of which matches
`"never.subscribed"`. -/
def psC8 : PubSub Nat Unit :=
  let p1 := (sub_client (PubSub.new : PubSub Nat Unit) 1 "b").1
  (sub_client p1 1 "c*").1

/-- C8 witness: publishing to `"never.subscribed"` on `psC8` leaves the
state unchanged and performs no delivery. -/
theorem pub_message_reads_only_witness :
    (pub_message psC8 "never.subscribed").1 = psC8 ∧
    (pub_message psC8 "never.subscribed").2 = [] :=
  ⟨(pub_message_reads_only psC8 "never.subscribed").1,
   (pub_message_reads_only psC8 "never.subscribed").2 (by decide)
     (by decide)⟩

/-- C9 witness: re-adding identifier `1` with a new client record `7`
replaces the old record `5`, and the entry of any other identifier is
unaffected. -/
theorem add_client_overwrites_witness :
    alistGet 1 (add_client (add_client (PubSub.new : PubSub Nat Nat) 1 5)
      1 7).clients = some 7 ∧
    alistGet 2 (add_client (add_client (PubSub.new : PubSub Nat Nat) 1 5)
      1 7).clients =
      alistGet 2 (add_client (PubSub.new : PubSub Nat Nat) 1 5).clients :=
  ⟨(add_client_overwrites (add_client (PubSub.new : PubSub Nat Nat) 1 5)
      1 7).1,
   (add_client_overwrites (add_client (PubSub.new : PubSub Nat Nat) 1 5)
      1 7).2.1 2 (by decide)⟩

end GeneralPubSub
